import Mathlib

/-!
Verification of the consistency-plot module (shapash/explainer/consistency.py).

The numeric pipeline is embedded shallowly: contribution tables are lists of
rows (lists of scalars) over a linear ordered field, and the square root used
by the L2 norm is an explicit function parameter, instantiated with Real.sqrt
for the claims that depend on its semantics.
-/

namespace Consistency

variable {α : Type} [LinearOrderedField α]

/-- Sum of squares of the entries of a row vector. -/
def sumSq (v : List α) : α := (v.map fun x => x * x).sum

/-- L2 norm of a row vector: np.linalg.norm(v, ord=2). -/
def l2norm (sqrt : α → α) (v : List α) : α := sqrt (sumSq v)

/-- Row-wise L2 normalization: v / np.linalg.norm(v, ord=2). -/
def normalizeRow (sqrt : α → α) (v : List α) : List α :=
  v.map fun x => x / l2norm sqrt v

/-- Componentwise difference of two rows (numpy broadcasting on same-shape rows). -/
def subVec (v w : List α) : List α := List.zipWith (fun a b => a - b) v w

/-- Per-instance distance: L2 norm of the difference of the two normalized rows. -/
def rowDist (sqrt : α → α) (v w : List α) : α :=
  l2norm sqrt (subVec (normalizeRow sqrt v) (normalizeRow sqrt w))

/-- np.mean of a list of scalars. -/
def mean (l : List α) : α := l.sum / (l.length : α)

/-- One row of the all_comparisons array: method index i, method index j,
instance index, and the distance between the two normalized contribution rows. -/
structure PairwiseComparisonRecord (α : Type) where
  mi : ℕ
  mj : ℕ
  inst : ℕ
  dist : α
deriving DecidableEq

/-- itertools.combinations(range M, 2): all pairs (i, j) with i < j < M in
ascending lexicographic order. -/
def combinations2 (M : ℕ) : List (ℕ × ℕ) :=
  (List.range M).flatMap fun i =>
    ((List.range M).filter fun j => i < j).map fun j => (i, j)

/-- A single DataFrame.loc write: update one entry of the matrix. -/
def updMat (m : ℕ → ℕ → α) (i j : ℕ) (v : α) : ℕ → ℕ → α :=
  fun a b => if a = i ∧ b = j then v else m a b

/-- calculate_mean_distances: write np.mean(l2_dist) at (i, j) and (j, i). -/
def calculate_mean_distances (m : ℕ → ℕ → α) (i j : ℕ) (l2d : List α) :
    ℕ → ℕ → α :=
  updMat (updMat m i j (mean l2d)) j i (mean l2d)

/-- calculate_pairwise_distances: normalize the two tables row-wise, take the
rowwise L2 distance, and build the comparison records (i, j, k, dist k). -/
def calculate_pairwise_distances (sqrt : α → α) (weights : List (List (List α)))
    (i j : ℕ) : List α × List (PairwiseComparisonRecord α) :=
  let wi := weights.getD i []
  let wj := weights.getD j []
  let l2d := List.zipWith (rowDist sqrt) wi wj
  (l2d, (List.range l2d.length).map fun k => ⟨i, j, k, l2d.getD k 0⟩)

/-- calculate_all_distances: fold over all method pairs in combinatorial order,
accumulating the comparison records and the symmetric mean-distance matrix
(initialized to zeros). -/
def calculate_all_distances (sqrt : α → α) (methods : List String)
    (weights : List (List (List α))) :
    List (PairwiseComparisonRecord α) × (ℕ → ℕ → α) :=
  (combinations2 methods.length).foldl
    (fun st p =>
      (st.1 ++ (calculate_pairwise_distances sqrt weights p.1 p.2).2,
       calculate_mean_distances st.2 p.1 p.2
         (calculate_pairwise_distances sqrt weights p.1 p.2).1))
    ([], fun _ _ => 0)

/-- Minimum of a list, with a default for the empty list (pandas .min().min()). -/
def listMin (l : List α) (d : α) : α :=
  match l with
  | [] => d
  | x :: xs => xs.foldl min x

/-- Maximum of a list, with a default for the empty list (pandas .max().max()). -/
def listMax (l : List α) (d : α) : α :=
  match l with
  | [] => d
  | x :: xs => xs.foldl max x

/-- Minimum value of a list (0 on the empty list); helper for argmin. -/
def minVal : List α → α
  | [] => 0
  | [x] => x
  | x :: y :: xs => min x (minVal (y :: xs))

/-- np.argmin: index of the first occurrence of the minimum value. -/
def argminIdx : List α → ℕ
  | [] => 0
  | [_] => 0
  | x :: y :: xs => if x ≤ minVal (y :: xs) then 0 else argminIdx (y :: xs) + 1

/-- The distance value of the record closest (in absolute difference) to the
target: all_comparisons[:, -1][np.abs(all_comparisons[:, -1] - i).argmin()]. -/
def closestDist (recs : List (PairwiseComparisonRecord α)) (t : α) : α :=
  (recs.getD (argminIdx (recs.map fun r => |r.dist - t|)) ⟨0, 0, 0, 0⟩).dist

/-- np.linspace(a, b, num=5): five evenly spaced values from a to b inclusive. -/
def linspace5 (a b : α) : List α :=
  (List.range 5).map fun k : ℕ => a + (b - a) * (k : α) / 4

/-- The first record whose distance equals the matched distance:
all_comparisons[all_comparisons[:, -1] == closest_l2][0]. -/
def selRow (recs : List (PairwiseComparisonRecord α)) (t : α) :
    PairwiseComparisonRecord α :=
  (recs.filter fun r => r.dist = closestDist recs t).headD ⟨0, 0, 0, 0⟩

/-- contrib_1: the selected instance row of the first method of the matched
record. -/
def selVec1 (recs : List (PairwiseComparisonRecord α))
    (weights : List (List (List α))) (t : α) : List α :=
  (weights.getD (selRow recs t).mi []).getD (selRow recs t).inst []

/-- contrib_2: the selected instance row of the second method of the matched
record. -/
def selVec2 (recs : List (PairwiseComparisonRecord α))
    (weights : List (List (List α))) (t : α) : List α :=
  (weights.getD (selRow recs t).mj []).getD (selRow recs t).inst []

/-- One iteration of the find_examples loop: pick the record realizing the
closest distance to the target, extract and re-normalize its two contribution
rows, and append them unless that distance value was already used. -/
def findStep (sqrt : α → α) (recs : List (PairwiseComparisonRecord α))
    (weights : List (List (List α)))
    (st : List (List α) × List (List α) × List α) (target : α) :
    List (List α) × List (List α) × List α :=
  if closestDist recs target ∈ st.2.2 then st
  else (st.1 ++ [normalizeRow sqrt (selVec1 recs weights target)],
        st.2.1 ++ [normalizeRow sqrt (selVec2 recs weights target)],
        st.2.2 ++ [closestDist recs target])

/-- All entries of the M×M mean-distance matrix, row by row. -/
def matEntries (md : ℕ → ℕ → α) (M : ℕ) : List α :=
  (List.range M).flatMap fun a => (List.range M).map fun b => md a b

/-- find_examples: five evenly spaced targets between the smallest strictly
positive matrix entry and the largest entry, each matched to the record whose
distance is closest, skipping targets whose matched distance was already used. -/
def find_examples (sqrt : α → α) (md : ℕ → ℕ → α) (M : ℕ)
    (recs : List (PairwiseComparisonRecord α))
    (weights : List (List (List α))) :
    List (List α) × List (List α) × List α :=
  let lo := listMin ((matEntries md M).filter fun x => 0 < x) 0
  let hi := listMax (matEntries md M) 0
  (linspace5 lo hi).foldl (findStep sqrt recs weights) ([], [], [])

/-- Keep the first occurrence of every value, in order (specification of the
duplicate-skipping behavior of find_examples). -/
def dedupKeepFirst (l : List α) : List α :=
  l.foldl (fun acc x => if x ∈ acc then acc else acc ++ [x]) []

/-- calculate_coords: hand the matrix to the external MDS embedding with
random_state fixed to 0; mds models the seeded sklearn algorithm. -/
def calculate_coords (mds : ℕ → (ℕ → ℕ → α) → List (α × α))
    (m : ℕ → ℕ → α) : List (α × α) :=
  mds 0 m

/-- A Python value passed as a contribution table: either an actual DataFrame
holding a rectangular numeric table, or some other object. -/
inductive PyVal (α : Type) where
  | df (t : List (List α))
  | other

/-- The selection argument: None, a list of row indices, or some other object. -/
inductive PySelection where
  | noneSel
  | listSel (l : List ℕ)
  | otherSel

/-- The exceptions consistency_plot can raise before producing results. -/
inductive PlotError where
  | nameError
  | validationError (msg : String)
deriving DecidableEq

/-- Rows and columns of a DataFrame (tables are rectangular). -/
def shapeOf (t : List (List α)) : ℕ × ℕ := (t.length, (t.headD []).length)

/-- Shape of a supplied value, as read off its DataFrame payload. -/
def shapeV (v : PyVal α) : ℕ × ℕ :=
  match v with
  | .df t => shapeOf t
  | .other => (0, 0)

/-- Whether isinstance(x, pd.DataFrame) holds. -/
def isDf (v : PyVal α) : Prop :=
  match v with
  | .df _ => True
  | .other => False

instance (v : PyVal α) : Decidable (isDf v) := by
  cases v <;> simp [isDf] <;> infer_instance

/-- The DataFrame payload (DataFrame.values); only reached after validation. -/
def dfData (v : PyVal α) : List (List α) :=
  match v with
  | .df t => t
  | .other => []

/-- Everything consistency_plot computes before handing off to the renderer. -/
structure PipelineResult (α : Type) where
  methods : List String
  weights : List (List (List α))
  comparisons : List (PairwiseComparisonRecord α)
  meanDistances : ℕ → ℕ → α
  examples : List (List α) × List (List α) × List α
  coords : List (α × α)

/-- consistency_plot: validate the supplied tables and the selection, subset the
tables, then run the distance computation, example selection and projection.
An absent or empty contributions mapping leaves the weights variable unbound,
which surfaces as a NameError before any validation check. -/
def consistency_plot (sqrt : α → α) (mds : ℕ → (ℕ → ℕ → α) → List (α × α))
    (contributions : Option (List (String × PyVal α))) (selection : PySelection) :
    Except PlotError (PipelineResult α) :=
  match contributions with
  | Option.none => .error .nameError
  | Option.some c =>
    if c.isEmpty then .error .nameError
    else
      let methods := c.map fun p => p.1
      let weights0 := c.map fun p => p.2
      if ¬ (∀ x ∈ weights0, isDf x) then
        .error (.validationError "Contributions must be pandas DataFrames")
      else if ¬ (∀ x ∈ weights0, shapeV x = shapeV (weights0.headD .other)) then
        .error (.validationError "Contributions must be of same shape")
      else
        let weights1 := weights0.map dfData
        match selection with
        | .noneSel =>
          let cd := calculate_all_distances sqrt methods weights1
          .ok ⟨methods, weights1, cd.1, cd.2,
               find_examples sqrt cd.2 methods.length cd.1 weights1,
               calculate_coords mds cd.2⟩
        | .listSel l =>
          if l.length = 1 then
            .error (.validationError "Selection must include multiple points")
          else
            let weights2 := weights1.map fun w => l.map fun idx => w.getD idx []
            let cd := calculate_all_distances sqrt methods weights2
            .ok ⟨methods, weights2, cd.1, cd.2,
                 find_examples sqrt cd.2 methods.length cd.1 weights2,
                 calculate_coords mds cd.2⟩
        | .otherSel =>
          .error (.validationError "Parameter selection must be a list")

/-- Strict ascending lexicographic order on method pairs. -/
def pairLt (p q : ℕ × ℕ) : Prop :=
  p.1 < q.1 ∨ (p.1 = q.1 ∧ p.2 < q.2)

/-- Strict ascending enumeration order on comparison records: by first method
index, then second method index, then instance index. -/
def recLt {α : Type} (r s : PairwiseComparisonRecord α) : Prop :=
  r.mi < s.mi ∨ (r.mi = s.mi ∧ (r.mj < s.mj ∨ (r.mj = s.mj ∧ r.inst < s.inst)))

/-! ### Structural lemmas about the distance fold -/

/-- The record component of the two-component fold is the concatenation of the
per-pair record blocks. -/
lemma foldl_pair_fst {β γ : Type} (f : ℕ × ℕ → List β) (g : γ → ℕ × ℕ → γ)
    (L : List (ℕ × ℕ)) :
    ∀ (a : List β) (m : γ),
      (L.foldl (fun st p => (st.1 ++ f p, g st.2 p)) (a, m)).1 = a ++ L.flatMap f := by
  induction L with
  | nil => intro a m; simp
  | cons p L ih =>
    intro a m
    simp only [List.foldl_cons, List.flatMap_cons]
    rw [ih]
    simp

/-- The matrix component of the two-component fold is a pure fold of the
symmetric writes. -/
lemma foldl_pair_snd {β γ : Type} (f : ℕ × ℕ → List β) (g : γ → ℕ × ℕ → γ)
    (L : List (ℕ × ℕ)) :
    ∀ (a : List β) (m : γ),
      (L.foldl (fun st p => (st.1 ++ f p, g st.2 p)) (a, m)).2 = L.foldl g m := by
  induction L with
  | nil => intro a m; rfl
  | cons p L ih =>
    intro a m
    simp only [List.foldl_cons]
    exact ih _ _

lemma calculate_all_distances_fst (sqrt : α → α) (methods : List String)
    (weights : List (List (List α))) :
    (calculate_all_distances sqrt methods weights).1
      = (combinations2 methods.length).flatMap
          (fun p => (calculate_pairwise_distances sqrt weights p.1 p.2).2) := by
  unfold calculate_all_distances
  simpa using foldl_pair_fst
    (fun p => (calculate_pairwise_distances sqrt weights p.1 p.2).2)
    (fun m p => calculate_mean_distances m p.1 p.2
      (calculate_pairwise_distances sqrt weights p.1 p.2).1)
    (combinations2 methods.length) [] (fun _ _ => 0)

lemma calculate_all_distances_snd (sqrt : α → α) (methods : List String)
    (weights : List (List (List α))) :
    (calculate_all_distances sqrt methods weights).2
      = (combinations2 methods.length).foldl
          (fun m p => calculate_mean_distances m p.1 p.2
            (calculate_pairwise_distances sqrt weights p.1 p.2).1)
          (fun _ _ => 0) := by
  unfold calculate_all_distances
  exact foldl_pair_snd
    (fun p => (calculate_pairwise_distances sqrt weights p.1 p.2).2)
    (fun m p => calculate_mean_distances m p.1 p.2
      (calculate_pairwise_distances sqrt weights p.1 p.2).1)
    (combinations2 methods.length) [] (fun _ _ => 0)

lemma mem_combinations2 {M a b : ℕ} :
    (a, b) ∈ combinations2 M ↔ a < M ∧ b < M ∧ a < b := by
  simp only [combinations2, List.mem_flatMap, List.mem_map, List.mem_filter,
    List.mem_range, decide_eq_true_eq]
  constructor
  · rintro ⟨i, hi, j, ⟨hj, hij⟩, h⟩
    injection h with h1 h2
    subst h1; subst h2
    exact ⟨hi, hj, hij⟩
  · rintro ⟨ha, hb, hab⟩
    exact ⟨a, ha, b, ⟨hb, hab⟩, rfl⟩

lemma combinations2_fst_lt {M : ℕ} : ∀ p ∈ combinations2 M, p.1 < p.2 := by
  rintro ⟨a, b⟩ hp
  exact (mem_combinations2.mp hp).2.2

/-- The symmetric write puts the mean at entry (i, j). -/
lemma calculate_mean_distances_at_ij (m : ℕ → ℕ → α) {i j : ℕ} (hij : i < j)
    (l : List α) : calculate_mean_distances m i j l i j = mean l := by
  have h1 : ¬(i = j ∧ j = i) := by omega
  simp [calculate_mean_distances, updMat, h1]

/-- A symmetric write at a pair (p₁, p₂) with p₁ < p₂ leaves an entry (i, j)
with i < j and (i, j) ≠ (p₁, p₂) unchanged. -/
lemma calculate_mean_distances_other (m : ℕ → ℕ → α) {i j p1 p2 : ℕ}
    (hij : i < j) (hp : p1 < p2) (hne : (p1, p2) ≠ (i, j)) (l : List α) :
    calculate_mean_distances m p1 p2 l i j = m i j := by
  have h1 : ¬(i = p2 ∧ j = p1) := by omega
  have h2 : ¬(i = p1 ∧ j = p2) := by
    rintro ⟨rfl, rfl⟩
    exact hne rfl
  simp [calculate_mean_distances, updMat, h1, h2]

/-- After folding the symmetric writes over a list of ascending pairs that
contains (i, j), entry (i, j) holds the mean for that pair. -/
lemma foldl_mat_eq (ds : ℕ × ℕ → List α) (L : List (ℕ × ℕ)) :
    ∀ (m : ℕ → ℕ → α) (i j : ℕ), i < j →
      (∀ p ∈ L, p.1 < p.2) →
      ((i, j) ∈ L ∨ m i j = mean (ds (i, j))) →
      L.foldl (fun m p => calculate_mean_distances m p.1 p.2 (ds p)) m i j
        = mean (ds (i, j)) := by
  induction L with
  | nil =>
    intro m i j hij _ h
    rcases h with h | h
    · simp at h
    · simpa using h
  | cons p L ih =>
    intro m i j hij hall h
    obtain ⟨p1, p2⟩ := p
    have hpl : p1 < p2 := hall (p1, p2) (List.mem_cons_self _ L)
    simp only [List.foldl_cons]
    apply ih _ i j hij (fun q hq => hall q (List.mem_cons_of_mem _ hq))
    by_cases hp : (p1, p2) = (i, j)
    · right
      injection hp with hp1 hp2
      subst hp1; subst hp2
      exact calculate_mean_distances_at_ij m hij _
    · rcases h with h | h
      · left
        rcases List.mem_cons.mp h with h' | h'
        · exact absurd h'.symm hp
        · exact h'
      · right
        rw [calculate_mean_distances_other m hij hpl hp _]
        exact h

lemma getD_mem_of_lt {β : Type} {l : List β} {i : ℕ} (h : i < l.length) (d : β) :
    l.getD i d ∈ l := by
  rw [List.getD_eq_getElem?_getD, List.getElem?_eq_getElem h]
  exact List.getElem_mem h

/-- C1: for every valid input (all tables of shape N×F, N instances each) and
every method pair (i, j) with i < j, the (i, j) entry of the mean-distance
matrix equals the arithmetic mean over the N instances of the L2 norm of the
difference between the two row-wise L2-normalized contribution vectors. -/
theorem claim_C1 (sqrt : α → α) (methods : List String)
    (weights : List (List (List α))) (N i j : ℕ) (hij : i < j)
    (hj : j < methods.length) (hlen : weights.length = methods.length)
    (hN : ∀ w ∈ weights, w.length = N) :
    (calculate_all_distances sqrt methods weights).2 i j
      = (List.zipWith (rowDist sqrt) (weights.getD i []) (weights.getD j [])).sum
          / (N : α) := by
  have hmem : (i, j) ∈ combinations2 methods.length :=
    mem_combinations2.mpr ⟨lt_trans hij hj, hj, hij⟩
  rw [calculate_all_distances_snd,
    foldl_mat_eq _ _ _ i j hij (fun p hp => combinations2_fst_lt p hp) (Or.inl hmem)]
  have hi' : (weights.getD i []).length = N :=
    hN _ (getD_mem_of_lt (by omega) [])
  have hj' : (weights.getD j []).length = N :=
    hN _ (getD_mem_of_lt (by omega) [])
  simp only [calculate_pairwise_distances, mean]
  rw [List.length_zipWith, hi', hj', min_self]

/-- Witness for C1: a concrete two-method run with one instance. -/
theorem claim_C1_witness :
    (calculate_all_distances (α := ℚ) id ["a", "b"] [[[1, 2]], [[3, 4]]]).2 0 1
      = (List.zipWith (rowDist id)
          ([[[(1 : ℚ), 2]], [[(3 : ℚ), 4]]].getD 0 [])
          ([[[(1 : ℚ), 2]], [[(3 : ℚ), 4]]].getD 1 [])).sum / ((1 : ℕ) : ℚ) :=
  claim_C1 id ["a", "b"] [[[1, 2]], [[3, 4]]] 1 0 1
    (by decide) (by decide) (by decide) (by decide)

/-- A symmetric write with i ≠ j keeps the matrix symmetric at every entry. -/
lemma calculate_mean_distances_symm (m : ℕ → ℕ → α) (i j : ℕ) (l : List α)
    (hm : ∀ a b, m a b = m b a) (a b : ℕ) :
    calculate_mean_distances m i j l a b = calculate_mean_distances m i j l b a := by
  simp only [calculate_mean_distances, updMat]
  split_ifs <;> first | rfl | exact hm a b | tauto

/-- A symmetric write with i ≠ j never touches the diagonal. -/
lemma calculate_mean_distances_diag (m : ℕ → ℕ → α) {i j : ℕ} (hij : i ≠ j)
    (l : List α) (a : ℕ) :
    calculate_mean_distances m i j l a a = m a a := by
  simp only [calculate_mean_distances, updMat]
  rw [if_neg, if_neg] <;> rintro ⟨h1, h2⟩ <;> omega

lemma foldl_mat_symm (ds : ℕ × ℕ → List α) (L : List (ℕ × ℕ)) :
    ∀ (m : ℕ → ℕ → α), (∀ p ∈ L, p.1 ≠ p.2) → (∀ a b, m a b = m b a) →
      ∀ a b, L.foldl (fun m p => calculate_mean_distances m p.1 p.2 (ds p)) m a b
        = L.foldl (fun m p => calculate_mean_distances m p.1 p.2 (ds p)) m b a := by
  induction L with
  | nil => intro m _ hm a b; exact hm a b
  | cons p L ih =>
    intro m hall hm a b
    simp only [List.foldl_cons]
    exact ih _ (fun q hq => hall q (List.mem_cons_of_mem _ hq))
      (calculate_mean_distances_symm m p.1 p.2 _ hm) a b

lemma foldl_mat_diag (ds : ℕ × ℕ → List α) (L : List (ℕ × ℕ)) :
    ∀ (m : ℕ → ℕ → α), (∀ p ∈ L, p.1 ≠ p.2) → (∀ a, m a a = 0) →
      ∀ a, L.foldl (fun m p => calculate_mean_distances m p.1 p.2 (ds p)) m a a = 0 := by
  induction L with
  | nil => intro m _ hm a; exact hm a
  | cons p L ih =>
    intro m hall hm a
    simp only [List.foldl_cons]
    refine ih _ (fun q hq => hall q (List.mem_cons_of_mem _ hq)) (fun a => ?_) a
    rw [calculate_mean_distances_diag m (hall p (List.mem_cons_self p L)) (ds p) a]
    exact hm a

/-- C2: for every input, the mean-distance matrix produced by
calculate_all_distances is symmetric and has zero diagonal. -/
theorem claim_C2 (sqrt : α → α) (methods : List String)
    (weights : List (List (List α))) :
    (∀ i j, (calculate_all_distances sqrt methods weights).2 i j
          = (calculate_all_distances sqrt methods weights).2 j i)
    ∧ (∀ i, (calculate_all_distances sqrt methods weights).2 i i = 0) := by
  rw [calculate_all_distances_snd]
  constructor
  · intro i j
    exact foldl_mat_symm _ _ (fun _ _ => 0)
      (fun p hp => Nat.ne_of_lt (combinations2_fst_lt p hp))
      (fun _ _ => rfl) i j
  · intro i
    exact foldl_mat_diag _ _ (fun _ _ => 0)
      (fun p hp => Nat.ne_of_lt (combinations2_fst_lt p hp))
      (fun _ => rfl) i

/-! ### Lemmas for the record enumeration (C3) -/

lemma flatMap_congr {β γ : Type} {l : List β} {f g : β → List γ}
    (h : ∀ a ∈ l, f a = g a) : l.flatMap f = l.flatMap g := by
  induction l with
  | nil => rfl
  | cons x xs ih =>
    simp only [List.flatMap_cons]
    rw [h x (List.mem_cons_self x xs), ih fun a ha => h a (List.mem_cons_of_mem _ ha)]

lemma pairwise_flatMap {β γ : Type} {R : γ → γ → Prop} {f : β → List γ}
    (l : List β)
    (hl : List.Pairwise (fun a b => ∀ x ∈ f a, ∀ y ∈ f b, R x y) l)
    (hf : ∀ a ∈ l, List.Pairwise R (f a)) :
    List.Pairwise R (l.flatMap f) := by
  induction l with
  | nil => simp
  | cons x xs ih =>
    rw [List.flatMap_cons, List.pairwise_append]
    rcases List.pairwise_cons.mp hl with ⟨hx, hxs⟩
    refine ⟨hf x (List.mem_cons_self x xs),
      ih hxs (fun a ha => hf a (List.mem_cons_of_mem _ ha)), ?_⟩
    intro a ha b hb
    rw [List.mem_flatMap] at hb
    obtain ⟨c, hc, hbc⟩ := hb
    exact hx c hc a ha b hbc

lemma length_filter_range_lt (i M : ℕ) :
    ((List.range M).filter fun j => i < j).length = M - (i + 1) := by
  induction M with
  | zero => simp
  | succ M ih =>
    rw [List.range_succ, List.filter_append, List.length_append, ih]
    by_cases h : i < M <;> simp [List.filter_singleton, h] <;> omega

lemma sum_map_add_one {β : Type} (l : List β) (f : β → ℕ) :
    (l.map fun x => f x + 1).sum = (l.map f).sum + l.length := by
  induction l with
  | nil => rfl
  | cons x xs ih =>
    simp only [List.map_cons, List.sum_cons, List.length_cons, ih]
    omega

lemma sum_map_sub (M : ℕ) :
    ((List.range M).map fun i => M - (i + 1)).sum = Nat.choose M 2 := by
  induction M with
  | zero => rfl
  | succ M ih =>
    rw [List.range_succ, List.map_append, List.sum_append]
    have h1 : (List.range M).map (fun i => M + 1 - (i + 1))
        = (List.range M).map fun i => (M - (i + 1)) + 1 := by
      apply List.map_congr_left
      intro a ha
      rw [List.mem_range] at ha
      omega
    show ((List.range M).map fun i => M + 1 - (i + 1)).sum + _ = _
    rw [h1, sum_map_add_one, ih, List.length_range]
    have h2 : Nat.choose (M + 1) 2 = Nat.choose M 1 + Nat.choose M 2 :=
      Nat.choose_succ_succ M 1
    rw [h2, Nat.choose_one_right]
    simp
    omega

lemma length_combinations2 (M : ℕ) :
    (combinations2 M).length = Nat.choose M 2 := by
  rw [combinations2, List.length_flatMap]
  have h : List.map
      (List.length ∘ fun i => ((List.range M).filter fun j => i < j).map fun j => (i, j))
      (List.range M) = (List.range M).map fun i => M - (i + 1) := by
    apply List.map_congr_left
    intro a _
    simp [List.length_map, length_filter_range_lt]
  rw [h, sum_map_sub]

lemma sum_map_const_nat {β : Type} (l : List β) (c : ℕ) :
    (l.map fun _ => c).sum = l.length * c := by
  induction l with
  | nil => simp
  | cons x xs ih =>
    simp only [List.map_cons, List.sum_cons, List.length_cons, ih]
    ring

lemma pairwise_combinations2 (M : ℕ) : List.Pairwise pairLt (combinations2 M) := by
  apply pairwise_flatMap
  · refine (List.pairwise_lt_range M).imp ?_
    intro a b hab x hx y hy
    simp only [List.mem_map] at hx hy
    obtain ⟨j, hj, rfl⟩ := hx
    obtain ⟨j2, hj2, rfl⟩ := hy
    exact Or.inl hab
  · intro i _
    refine List.Pairwise.map _ ?_ ((List.pairwise_lt_range M).filter _)
    intro a b hab
    exact Or.inr ⟨rfl, hab⟩

/-- With both tables of length N, the per-pair record block enumerates the N
instances in order. -/
lemma cpd_records (sqrt : α → α) (weights : List (List (List α))) {i j N : ℕ}
    (hi : (weights.getD i []).length = N) (hj : (weights.getD j []).length = N) :
    (calculate_pairwise_distances sqrt weights i j).2
      = (List.range N).map fun k =>
          ⟨i, j, k, (List.zipWith (rowDist sqrt) (weights.getD i [])
            (weights.getD j [])).getD k 0⟩ := by
  simp only [calculate_pairwise_distances]
  rw [List.length_zipWith, hi, hj]
  simp

/-- C3: with M methods and N instances per table, calculate_all_distances
returns exactly C(M,2) × N comparison records, one per (ascending method pair,
instance) combination, each a 4-tuple (i, j, instance index, distance), and the
records are enumerated in strictly ascending (i, j, instance) order. -/
theorem claim_C3 (sqrt : α → α) (methods : List String)
    (weights : List (List (List α))) (N : ℕ)
    (hlen : weights.length = methods.length) (hN : ∀ w ∈ weights, w.length = N) :
    (calculate_all_distances sqrt methods weights).1
      = (combinations2 methods.length).flatMap
          (fun p => (List.range N).map fun k =>
            ⟨p.1, p.2, k,
             (List.zipWith (rowDist sqrt) (weights.getD p.1 [])
               (weights.getD p.2 [])).getD k 0⟩)
    ∧ (calculate_all_distances sqrt methods weights).1.length
        = Nat.choose methods.length 2 * N
    ∧ (∀ r ∈ (calculate_all_distances sqrt methods weights).1,
        r.mi < r.mj ∧ r.mj < methods.length ∧ r.inst < N)
    ∧ List.Pairwise recLt (calculate_all_distances sqrt methods weights).1 := by
  have hget : ∀ i < methods.length, (weights.getD i []).length = N := by
    intro i hi
    exact hN _ (getD_mem_of_lt (by omega) [])
  have key : (calculate_all_distances sqrt methods weights).1
      = (combinations2 methods.length).flatMap
          (fun p => (List.range N).map fun k =>
            ⟨p.1, p.2, k,
             (List.zipWith (rowDist sqrt) (weights.getD p.1 [])
               (weights.getD p.2 [])).getD k 0⟩) := by
    rw [calculate_all_distances_fst]
    apply flatMap_congr
    intro p hp
    obtain ⟨a, b⟩ := p
    obtain ⟨haM, hbM, _⟩ := mem_combinations2.mp hp
    exact cpd_records sqrt weights (hget a haM) (hget b hbM)
  refine ⟨key, ?_, ?_, ?_⟩
  · rw [key, List.length_flatMap]
    have h : List.map (List.length ∘ fun p => (List.range N).map fun k =>
          (⟨p.1, p.2, k,
            (List.zipWith (rowDist sqrt) (weights.getD p.1 [])
              (weights.getD p.2 [])).getD k 0⟩ : PairwiseComparisonRecord α))
        (combinations2 methods.length)
        = (combinations2 methods.length).map fun _ => N := by
      apply List.map_congr_left
      intro p _
      simp
    rw [h, sum_map_const_nat, length_combinations2]
  · rw [key]
    intro r hr
    rw [List.mem_flatMap] at hr
    obtain ⟨p, hp, hr⟩ := hr
    obtain ⟨a, b⟩ := p
    obtain ⟨haM, hbM, hab⟩ := mem_combinations2.mp hp
    rw [List.mem_map] at hr
    obtain ⟨k, hk, rfl⟩ := hr
    rw [List.mem_range] at hk
    exact ⟨hab, hbM, hk⟩
  · rw [key]
    apply pairwise_flatMap
    · refine (pairwise_combinations2 methods.length).imp ?_
      intro p q hpq x hx y hy
      rw [List.mem_map] at hx hy
      obtain ⟨k, _, rfl⟩ := hx
      obtain ⟨k2, _, rfl⟩ := hy
      rcases hpq with h | ⟨h1, h2⟩
      · exact Or.inl h
      · exact Or.inr ⟨h1, Or.inl h2⟩
    · intro p _
      refine List.Pairwise.map _ ?_ (List.pairwise_lt_range N)
      intro a b hab
      exact Or.inr ⟨rfl, Or.inr ⟨rfl, hab⟩⟩

/-- Witness for C3: a concrete three-method run with two instances each. -/
theorem claim_C3_witness :
    ((calculate_all_distances (α := ℚ) id ["a", "b", "c"]
        [[[1], [2]], [[3], [4]], [[5], [6]]]).1
      = (combinations2 (["a", "b", "c"] : List String).length).flatMap
          (fun p => (List.range 2).map fun k =>
            ⟨p.1, p.2, k,
             (List.zipWith (rowDist id)
               ([[[(1 : ℚ)], [2]], [[(3 : ℚ)], [4]], [[(5 : ℚ)], [6]]].getD p.1 [])
               ([[[(1 : ℚ)], [2]], [[(3 : ℚ)], [4]], [[(5 : ℚ)], [6]]].getD p.2 [])).getD
                 k 0⟩))
    ∧ (calculate_all_distances (α := ℚ) id ["a", "b", "c"]
        [[[1], [2]], [[3], [4]], [[5], [6]]]).1.length
        = Nat.choose (["a", "b", "c"] : List String).length 2 * 2
    ∧ (∀ r ∈ (calculate_all_distances (α := ℚ) id ["a", "b", "c"]
        [[[1], [2]], [[3], [4]], [[5], [6]]]).1,
        r.mi < r.mj ∧ r.mj < (["a", "b", "c"] : List String).length ∧ r.inst < 2)
    ∧ List.Pairwise recLt (calculate_all_distances (α := ℚ) id ["a", "b", "c"]
        [[[1], [2]], [[3], [4]], [[5], [6]]]).1 :=
  claim_C3 id ["a", "b", "c"] [[[1], [2]], [[3], [4]], [[5], [6]]] 2
    (by decide) (by decide)

/-! ### Norm facts over the reals (C8, C5) -/

lemma sumSq_nonneg (v : List α) : 0 ≤ sumSq v := by
  induction v with
  | nil => simp [sumSq]
  | cons x xs ih =>
    simp only [sumSq, List.map_cons, List.sum_cons] at *
    nlinarith [mul_self_nonneg x]

lemma sumSq_map_div (v : List α) (c : α) :
    sumSq (v.map fun x => x / c) = sumSq v / (c * c) := by
  induction v with
  | nil => simp [sumSq]
  | cons x xs ih =>
    simp only [sumSq, List.map_cons, List.sum_cons] at *
    rw [ih, div_mul_div_comm, add_div]

lemma sumSq_normalizeRow (v : List ℝ) (h : sumSq v ≠ 0) :
    sumSq (normalizeRow Real.sqrt v) = 1 := by
  unfold normalizeRow l2norm
  rw [sumSq_map_div, Real.mul_self_sqrt (sumSq_nonneg v), div_self h]

lemma l2norm_normalizeRow (v : List ℝ) (h : sumSq v ≠ 0) :
    l2norm Real.sqrt (normalizeRow Real.sqrt v) = 1 := by
  unfold l2norm
  rw [sumSq_normalizeRow v h, Real.sqrt_one]

lemma sumSq_sub_le (a b : List α) :
    sumSq (subVec a b) ≤ 2 * sumSq a + 2 * sumSq b := by
  induction a generalizing b with
  | nil =>
    have hb := sumSq_nonneg b
    simp only [subVec, List.zipWith_nil_left, sumSq, List.map_nil, List.sum_nil] at *
    linarith
  | cons x xs ih =>
    cases b with
    | nil =>
      have ha := sumSq_nonneg (x :: xs)
      simp only [subVec, List.zipWith_nil_right, sumSq, List.map_nil,
        List.sum_nil] at *
      linarith
    | cons y ys =>
      have h1 := ih ys
      simp only [subVec, List.zipWith_cons_cons, sumSq, List.map_cons,
        List.sum_cons] at *
      nlinarith [sq_nonneg (x + y)]

lemma rowDist_nonneg (v w : List ℝ) : 0 ≤ rowDist Real.sqrt v w :=
  Real.sqrt_nonneg _

lemma rowDist_le_two (v w : List ℝ) (hv : sumSq v ≠ 0) (hw : sumSq w ≠ 0) :
    rowDist Real.sqrt v w ≤ 2 := by
  unfold rowDist l2norm
  have h1 : sumSq (subVec (normalizeRow Real.sqrt v) (normalizeRow Real.sqrt w)) ≤ 4 := by
    have h2 := sumSq_sub_le (normalizeRow Real.sqrt v) (normalizeRow Real.sqrt w)
    rw [sumSq_normalizeRow v hv, sumSq_normalizeRow w hw] at h2
    linarith
  calc Real.sqrt (sumSq (subVec (normalizeRow Real.sqrt v) (normalizeRow Real.sqrt w)))
      ≤ Real.sqrt 4 := Real.sqrt_le_sqrt h1
    _ = 2 := by
        rw [show (4 : ℝ) = 2 ^ 2 by norm_num, Real.sqrt_sq (by norm_num : (0:ℝ) ≤ 2)]

lemma exists_of_mem_zipWith {β γ δ : Type} {f : β → γ → δ} :
    ∀ {a : List β} {b : List γ} {d : δ}, d ∈ List.zipWith f a b →
      ∃ x ∈ a, ∃ y ∈ b, d = f x y := by
  intro a
  induction a with
  | nil => intro b d h; simp at h
  | cons x xs ih =>
    intro b d h
    cases b with
    | nil => simp at h
    | cons y ys =>
      rw [List.zipWith_cons_cons] at h
      rcases List.mem_cons.mp h with h | h
      · exact ⟨x, List.mem_cons_self x xs, y, List.mem_cons_self y ys, h⟩
      · obtain ⟨x2, hx2, y2, hy2, rfl⟩ := ih h
        exact ⟨x2, List.mem_cons_of_mem _ hx2, y2, List.mem_cons_of_mem _ hy2, rfl⟩

/-- C8: when every instance row of the two tables has nonzero L2 norm, every
per-instance distance computed by calculate_pairwise_distances lies in [0, 2]. -/
theorem claim_C8 (weights : List (List (List ℝ))) (i j : ℕ)
    (hi : ∀ v ∈ weights.getD i [], sumSq v ≠ 0)
    (hj : ∀ v ∈ weights.getD j [], sumSq v ≠ 0) :
    ∀ d ∈ (calculate_pairwise_distances Real.sqrt weights i j).1,
      0 ≤ d ∧ d ≤ 2 := by
  intro d hd
  simp only [calculate_pairwise_distances] at hd
  obtain ⟨v, hv, w, hw, rfl⟩ := exists_of_mem_zipWith hd
  exact ⟨rowDist_nonneg v w, rowDist_le_two v w (hi v hv) (hj w hw)⟩

/-- Witness for C8: two methods with orthogonal unit rows; the single computed
distance lies in [0, 2]. -/
theorem claim_C8_witness :
    0 ≤ (calculate_pairwise_distances Real.sqrt [[[1, 0]], [[0, 1]]] 0 1).1.headD 0
    ∧ (calculate_pairwise_distances Real.sqrt [[[1, 0]], [[0, 1]]] 0 1).1.headD 0
        ≤ 2 :=
  claim_C8 [[[1, 0]], [[0, 1]]] 0 1
    (by
      intro v hv
      simp only [List.getD_cons_zero] at hv
      rw [List.mem_singleton] at hv
      subst hv
      norm_num [sumSq])
    (by
      intro v hv
      simp only [List.getD_cons_succ, List.getD_cons_zero] at hv
      rw [List.mem_singleton] at hv
      subst hv
      norm_num [sumSq])
    _ (List.mem_cons_self _ _)

/-! ### The argmin selection and the example fold (C4, C5) -/

lemma minVal_le (x : α) (xs : List α) : ∀ y ∈ x :: xs, minVal (x :: xs) ≤ y := by
  induction xs generalizing x with
  | nil =>
    intro y hy
    rw [List.mem_singleton] at hy
    subst hy
    simp [minVal]
  | cons b l2 ih =>
    intro y hy
    rw [show minVal (x :: b :: l2) = min x (minVal (b :: l2)) from rfl]
    rcases List.mem_cons.mp hy with rfl | hy
    · exact min_le_left _ _
    · exact le_trans (min_le_right _ _) (ih b y hy)

lemma argminIdx_lt_length (x : α) (xs : List α) :
    argminIdx (x :: xs) < (x :: xs).length := by
  induction xs generalizing x with
  | nil => simp [argminIdx]
  | cons b l2 ih =>
    by_cases hc : x ≤ minVal (b :: l2)
    · simp [argminIdx, hc]
    · have h2 := ih b
      simp only [argminIdx, if_neg hc, List.length_cons] at *
      omega

lemma getD_argminIdx (x : α) (xs : List α) (d : α) :
    (x :: xs).getD (argminIdx (x :: xs)) d = minVal (x :: xs) := by
  induction xs generalizing x with
  | nil => simp [argminIdx, minVal]
  | cons b l2 ih =>
    by_cases hc : x ≤ minVal (b :: l2)
    · have hidx : argminIdx (x :: b :: l2) = 0 := by simp [argminIdx, hc]
      rw [hidx, List.getD_cons_zero,
        show minVal (x :: b :: l2) = min x (minVal (b :: l2)) from rfl,
        min_eq_left hc]
    · have hidx : argminIdx (x :: b :: l2) = argminIdx (b :: l2) + 1 := by
        simp [argminIdx, hc]
      rw [hidx, List.getD_cons_succ, ih b,
        show minVal (x :: b :: l2) = min x (minVal (b :: l2)) from rfl,
        min_eq_right (le_of_not_le hc)]

lemma getD_map {β γ : Type} (f : β → γ) (l : List β) (n : ℕ) (d : β) :
    (l.map f).getD n (f d) = f (l.getD n d) := by
  rw [List.getD_eq_getElem?_getD, List.getD_eq_getElem?_getD, List.getElem?_map]
  cases l[n]? <;> rfl

/-- The matched distance is realized by some record, and it minimizes the
absolute difference to the target over all records. -/
lemma closestDist_spec (recs : List (PairwiseComparisonRecord α)) (t : α)
    (h : recs ≠ []) :
    (∃ r ∈ recs, r.dist = closestDist recs t) ∧
      ∀ r ∈ recs, |closestDist recs t - t| ≤ |r.dist - t| := by
  obtain ⟨r0, rs, rfl⟩ := List.exists_cons_of_ne_nil h
  have hidx : argminIdx ((r0 :: rs).map fun r => |r.dist - t|) < (r0 :: rs).length := by
    have h2 := argminIdx_lt_length (|r0.dist - t|) (rs.map fun r => |r.dist - t|)
    simpa using h2
  constructor
  · refine ⟨(r0 :: rs).getD (argminIdx ((r0 :: rs).map fun s => |s.dist - t|)) ⟨0, 0, 0, 0⟩,
      getD_mem_of_lt hidx _, ?_⟩
    rfl
  · intro r hr
    have key : |closestDist (r0 :: rs) t - t|
        = ((r0 :: rs).map fun r => |r.dist - t|).getD
            (argminIdx ((r0 :: rs).map fun r => |r.dist - t|))
            ((fun r : PairwiseComparisonRecord α => |r.dist - t|) ⟨0, 0, 0, 0⟩) := by
      rw [getD_map]
      rfl
    rw [key, List.map_cons, getD_argminIdx]
    have hmem := List.mem_map_of_mem (fun s : PairwiseComparisonRecord α => |s.dist - t|) hr
    rw [List.map_cons] at hmem
    exact minVal_le _ _ _ hmem

lemma headD_filter_mem {β : Type} {p : β → Bool} {l : List β} {d : β}
    (h : l.filter p ≠ []) :
    (l.filter p).headD d ∈ l ∧ p ((l.filter p).headD d) = true := by
  obtain ⟨x, xs, hx⟩ := List.exists_cons_of_ne_nil h
  have hmem : x ∈ l.filter p := by
    rw [hx]
    exact List.mem_cons_self x xs
  rcases List.mem_filter.mp hmem with ⟨h1, h2⟩
  rw [hx]
  exact ⟨h1, h2⟩

/-- The record whose row find_examples extracts is one of the supplied records. -/
lemma selRow_mem (recs : List (PairwiseComparisonRecord α)) (t : α)
    (h : recs ≠ []) : selRow recs t ∈ recs := by
  obtain ⟨r1, hr1, hd1⟩ := (closestDist_spec recs t h).1
  have hne : recs.filter (fun r => r.dist = closestDist recs t) ≠ [] := by
    apply List.ne_nil_of_mem (a := r1)
    rw [List.mem_filter]
    exact ⟨hr1, by simp [hd1]⟩
  exact (headD_filter_mem hne).1

/-- The third component of the find_examples fold performs first-occurrence
deduplication of the matched distances. -/
lemma foldl_findStep_l2 (sqrt : α → α) (recs : List (PairwiseComparisonRecord α))
    (weights : List (List (List α))) (ts : List α) :
    ∀ st : List (List α) × List (List α) × List α,
      (ts.foldl (findStep sqrt recs weights) st).2.2
        = ts.foldl (fun acc t => if closestDist recs t ∈ acc then acc
            else acc ++ [closestDist recs t]) st.2.2 := by
  induction ts with
  | nil => intro st; rfl
  | cons t ts ih =>
    intro st
    simp only [List.foldl_cons]
    rw [ih]
    congr 1
    unfold findStep
    by_cases h : closestDist recs t ∈ st.2.2 <;> simp [h]

lemma foldl_dedup_length (g : α → α) (ts : List α) :
    ∀ acc : List α,
      (ts.foldl (fun acc t => if g t ∈ acc then acc else acc ++ [g t]) acc).length
        ≤ acc.length + ts.length := by
  induction ts with
  | nil => intro acc; simp
  | cons t ts ih =>
    intro acc
    simp only [List.foldl_cons, List.length_cons]
    by_cases h : g t ∈ acc
    · rw [if_pos h]
      have h2 := ih acc
      omega
    · rw [if_neg h]
      have h2 := ih (acc ++ [g t])
      rw [List.length_append, List.length_singleton] at h2
      omega

lemma foldl_dedup_nodup (g : α → α) (ts : List α) :
    ∀ acc : List α, acc.Nodup →
      (ts.foldl (fun acc t => if g t ∈ acc then acc else acc ++ [g t]) acc).Nodup := by
  induction ts with
  | nil => intro acc hacc; exact hacc
  | cons t ts ih =>
    intro acc hacc
    simp only [List.foldl_cons]
    by_cases h : g t ∈ acc
    · rw [if_pos h]
      exact ih acc hacc
    · rw [if_neg h]
      apply ih
      rw [List.nodup_append]
      refine ⟨hacc, List.nodup_singleton _, ?_⟩
      intro x hx hx2
      rw [List.mem_singleton] at hx2
      subst hx2
      exact h hx

/-- Every vector the find_examples fold appends is re-normalized by its own L2
norm, so the unit-norm invariant over the two example lists is preserved. -/
lemma foldl_findStep_norms (recs : List (PairwiseComparisonRecord ℝ))
    (weights : List (List (List ℝ))) (hrecs : recs ≠ [])
    (hn : ∀ r ∈ recs, sumSq ((weights.getD r.mi []).getD r.inst []) ≠ 0 ∧
          sumSq ((weights.getD r.mj []).getD r.inst []) ≠ 0)
    (ts : List ℝ) :
    ∀ st : List (List ℝ) × List (List ℝ) × List ℝ,
      (∀ v ∈ st.1, l2norm Real.sqrt v = 1) →
      (∀ v ∈ st.2.1, l2norm Real.sqrt v = 1) →
      (∀ v ∈ (ts.foldl (findStep Real.sqrt recs weights) st).1,
        l2norm Real.sqrt v = 1)
      ∧ ∀ v ∈ (ts.foldl (findStep Real.sqrt recs weights) st).2.1,
          l2norm Real.sqrt v = 1 := by
  induction ts with
  | nil => intro st h1 h2; exact ⟨h1, h2⟩
  | cons t ts ih =>
    intro st h1 h2
    simp only [List.foldl_cons]
    by_cases hdup : closestDist recs t ∈ st.2.2
    · have hstep : findStep Real.sqrt recs weights st t = st := by
        simp only [findStep]
        rw [if_pos hdup]
      rw [hstep]
      exact ih st h1 h2
    · have hstep : findStep Real.sqrt recs weights st t
          = (st.1 ++ [normalizeRow Real.sqrt (selVec1 recs weights t)],
             st.2.1 ++ [normalizeRow Real.sqrt (selVec2 recs weights t)],
             st.2.2 ++ [closestDist recs t]) := by
        simp only [findStep]
        rw [if_neg hdup]
      rw [hstep]
      apply ih
      · intro v hv
        rcases List.mem_append.mp hv with hv | hv
        · exact h1 v hv
        · rw [List.mem_singleton] at hv
          subst hv
          exact l2norm_normalizeRow _ (hn _ (selRow_mem recs t hrecs)).1
      · intro v hv
        rcases List.mem_append.mp hv with hv | hv
        · exact h2 v hv
        · rw [List.mem_singleton] at hv
          subst hv
          exact l2norm_normalizeRow _ (hn _ (selRow_mem recs t hrecs)).2

lemma linspace5_length (a b : α) : (linspace5 a b).length = 5 := by
  rw [linspace5, List.length_map, List.length_range]

/-- C5: when every instance row reachable from the records has nonzero L2 norm,
find_examples returns at most 5 examples and every returned contribution
vector, re-normalized at retrieval time, has L2 norm exactly 1. -/
theorem claim_C5 (md : ℕ → ℕ → ℝ) (M : ℕ)
    (recs : List (PairwiseComparisonRecord ℝ)) (weights : List (List (List ℝ)))
    (hrecs : recs ≠ [])
    (hn : ∀ r ∈ recs, sumSq ((weights.getD r.mi []).getD r.inst []) ≠ 0 ∧
          sumSq ((weights.getD r.mj []).getD r.inst []) ≠ 0) :
    (find_examples Real.sqrt md M recs weights).2.2.length ≤ 5
    ∧ (∀ v ∈ (find_examples Real.sqrt md M recs weights).1,
        l2norm Real.sqrt v = 1)
    ∧ ∀ v ∈ (find_examples Real.sqrt md M recs weights).2.1,
        l2norm Real.sqrt v = 1 := by
  simp only [find_examples]
  refine ⟨?_, ?_, ?_⟩
  · rw [foldl_findStep_l2]
    exact le_trans (foldl_dedup_length (fun t => closestDist recs t) _ [])
      (by rw [List.length_nil, linspace5_length])
  · exact (foldl_findStep_norms recs weights hrecs hn _ ([], [], [])
      (by simp) (by simp)).1
  · exact (foldl_findStep_norms recs weights hrecs hn _ ([], [], [])
      (by simp) (by simp)).2

/-- Witness for C5: one record over two single-instance tables with rows of
norm 5 and 13. -/
theorem claim_C5_witness :
    (find_examples Real.sqrt (fun _ _ => 0) 2 [⟨0, 1, 0, 1⟩]
        [[[3, 4]], [[5, 12]]]).2.2.length ≤ 5
    ∧ (∀ v ∈ (find_examples Real.sqrt (fun _ _ => 0) 2 [⟨0, 1, 0, 1⟩]
        [[[3, 4]], [[5, 12]]]).1, l2norm Real.sqrt v = 1)
    ∧ ∀ v ∈ (find_examples Real.sqrt (fun _ _ => 0) 2 [⟨0, 1, 0, 1⟩]
        [[[3, 4]], [[5, 12]]]).2.1, l2norm Real.sqrt v = 1 :=
  claim_C5 (fun _ _ => 0) 2 [⟨0, 1, 0, 1⟩] [[[3, 4]], [[5, 12]]]
    (by simp)
    (by
      intro r hr
      rw [List.mem_singleton] at hr
      subst hr
      constructor <;>
        norm_num [sumSq, List.getD_cons_zero, List.getD_cons_succ])

/-! ### Target generation and deduplication (C4) -/

lemma linspace5_getD (a b : α) {k : ℕ} (hk : k < 5) :
    (linspace5 a b).getD k 0 = a + (b - a) * (k : α) / 4 := by
  rw [linspace5, List.getD_eq_getElem?_getD, List.getElem?_map,
    List.getElem?_range hk]
  rfl

lemma linspace5_ne_nil (a b : α) : linspace5 a b ≠ [] := by
  intro h
  have h2 := linspace5_length a b
  rw [h] at h2
  simp at h2

lemma foldl_dedup_const_one (ts : List α) (h : ts ≠ []) :
    (ts.foldl (fun acc _t => if (1 : α) ∈ acc then acc else acc ++ [1]) []).length
      = 1 := by
  obtain ⟨t1, ts2, rfl⟩ := List.exists_cons_of_ne_nil h
  rw [List.foldl_cons, if_neg (List.not_mem_nil 1)]
  have key : ∀ ts3 : List α,
      ts3.foldl (fun acc _t => if (1 : α) ∈ acc then acc else acc ++ [1]) ([] ++ [1])
        = [] ++ [1] := by
    intro ts3
    induction ts3 with
    | nil => rfl
    | cons t ts4 ih =>
      rw [List.foldl_cons, if_pos (by simp)]
      exact ih
  rw [key]
  rfl

/-- With a single comparison record, every target matches the same distance, so
only one example survives the deduplication. -/
lemma exists_fewer_examples (sqrt : α → α) :
    ∃ (md2 : ℕ → ℕ → α) (recs2 : List (PairwiseComparisonRecord α))
      (ws2 : List (List (List α))),
      (find_examples sqrt md2 2 recs2 ws2).2.2.length < 5 := by
  refine ⟨fun _ _ => 1, [⟨0, 1, 0, 1⟩], [], ?_⟩
  simp only [find_examples]
  rw [foldl_findStep_l2]
  have hfun : (fun (acc : List α) (t : α) =>
      if closestDist [(⟨0, 1, 0, 1⟩ : PairwiseComparisonRecord α)] t ∈ acc then acc
      else acc ++ [closestDist [(⟨0, 1, 0, 1⟩ : PairwiseComparisonRecord α)] t])
      = fun acc _ => if (1 : α) ∈ acc then acc else acc ++ [1] := by
    funext acc _t
    rfl
  rw [hfun]
  rw [foldl_dedup_const_one _ (linspace5_ne_nil _ _)]
  norm_num

/-- C4: the example selector builds 5 evenly spaced targets from the smallest
strictly positive matrix entry to the largest entry inclusive, matches each
target to the record distance minimizing the absolute difference, skips targets
whose matched distance was already used (first-occurrence deduplication by
exact value), and can therefore end with fewer than 5 examples. -/
theorem claim_C4 (sqrt : α → α) (md : ℕ → ℕ → α) (M : ℕ)
    (recs : List (PairwiseComparisonRecord α)) (weights : List (List (List α)))
    (lo hi : α) (hrecs : recs ≠ [])
    (hlo : lo = listMin ((matEntries md M).filter fun x => 0 < x) 0)
    (hhi : hi = listMax (matEntries md M) 0) :
    (linspace5 lo hi).length = 5
    ∧ (linspace5 lo hi).getD 0 0 = lo
    ∧ (linspace5 lo hi).getD 4 0 = hi
    ∧ (∀ k : ℕ, k + 1 < 5 →
        (linspace5 lo hi).getD (k + 1) 0 - (linspace5 lo hi).getD k 0
          = (hi - lo) / 4)
    ∧ (∀ t ∈ linspace5 lo hi,
        (∃ r ∈ recs, r.dist = closestDist recs t)
        ∧ ∀ r ∈ recs, |closestDist recs t - t| ≤ |r.dist - t|)
    ∧ (find_examples sqrt md M recs weights).2.2
        = dedupKeepFirst ((linspace5 lo hi).map fun t => closestDist recs t)
    ∧ (find_examples sqrt md M recs weights).2.2.Nodup
    ∧ (find_examples sqrt md M recs weights).2.2.length ≤ 5
    ∧ ∃ (md2 : ℕ → ℕ → α) (recs2 : List (PairwiseComparisonRecord α))
        (ws2 : List (List (List α))),
        (find_examples sqrt md2 2 recs2 ws2).2.2.length < 5 := by
  subst hlo
  subst hhi
  refine ⟨linspace5_length _ _, ?_, ?_, ?_, ?_, ?_, ?_, ?_,
    exists_fewer_examples sqrt⟩
  · rw [linspace5_getD _ _ (by norm_num)]
    simp
  · rw [linspace5_getD _ _ (by norm_num)]
    rw [show ((4 : ℕ) : α) = 4 from by push_cast; ring, mul_div_assoc,
      div_self (by norm_num : (4 : α) ≠ 0), mul_one]
    ring
  · intro k hk
    rw [linspace5_getD _ _ (by omega), linspace5_getD _ _ (by omega)]
    push_cast
    ring
  · intro t _
    exact closestDist_spec recs t hrecs
  · simp only [find_examples]
    rw [foldl_findStep_l2, dedupKeepFirst, List.foldl_map]
  · simp only [find_examples]
    rw [foldl_findStep_l2]
    exact foldl_dedup_nodup _ _ [] List.nodup_nil
  · simp only [find_examples]
    rw [foldl_findStep_l2]
    exact le_trans (foldl_dedup_length (fun t => closestDist recs t) _ [])
      (by rw [List.length_nil, linspace5_length])

/-- Witness for C4: a degenerate run with one record and an empty matrix. -/
theorem claim_C4_witness :
    (linspace5 (0 : ℚ) 0).length = 5
    ∧ (linspace5 (0 : ℚ) 0).getD 0 0 = 0
    ∧ (linspace5 (0 : ℚ) 0).getD 4 0 = 0
    ∧ (∀ k : ℕ, k + 1 < 5 →
        (linspace5 (0 : ℚ) 0).getD (k + 1) 0 - (linspace5 (0 : ℚ) 0).getD k 0
          = ((0 : ℚ) - 0) / 4)
    ∧ (∀ t ∈ linspace5 (0 : ℚ) 0,
        (∃ r ∈ [(⟨0, 0, 0, 0⟩ : PairwiseComparisonRecord ℚ)],
          r.dist = closestDist [⟨0, 0, 0, 0⟩] t)
        ∧ ∀ r ∈ [(⟨0, 0, 0, 0⟩ : PairwiseComparisonRecord ℚ)],
            |closestDist [(⟨0, 0, 0, 0⟩ : PairwiseComparisonRecord ℚ)] t - t|
              ≤ |r.dist - t|)
    ∧ (find_examples (α := ℚ) id (fun _ _ => 0) 0 [⟨0, 0, 0, 0⟩] []).2.2
        = dedupKeepFirst ((linspace5 (0 : ℚ) 0).map fun t =>
            closestDist [(⟨0, 0, 0, 0⟩ : PairwiseComparisonRecord ℚ)] t)
    ∧ (find_examples (α := ℚ) id (fun _ _ => 0) 0 [⟨0, 0, 0, 0⟩] []).2.2.Nodup
    ∧ (find_examples (α := ℚ) id (fun _ _ => 0) 0 [⟨0, 0, 0, 0⟩] []).2.2.length ≤ 5
    ∧ ∃ (md2 : ℕ → ℕ → ℚ) (recs2 : List (PairwiseComparisonRecord ℚ))
        (ws2 : List (List (List ℚ))),
        (find_examples (α := ℚ) id md2 2 recs2 ws2).2.2.length < 5 :=
  claim_C4 id (fun _ _ => 0) 0 [⟨0, 0, 0, 0⟩] [] 0 0 (by simp) rfl rfl

/-! ### Validation and determinism of consistency_plot (C6, C7, C9, C10) -/

/-- C10: with contributions absent or an empty mapping, the placeholder branch
leaves the weights variable unassigned, so consistency_plot fails with an
unbound-variable error before any validation check, not a ValidationError. -/
theorem claim_C10 (sqrt : α → α) (mds : ℕ → (ℕ → ℕ → α) → List (α × α))
    (selection : PySelection) :
    consistency_plot sqrt mds Option.none selection = .error .nameError
    ∧ consistency_plot sqrt mds (Option.some []) selection
        = .error .nameError := by
  constructor
  · rfl
  · rfl

/-- C6: whenever some supplied value is not a DataFrame, or two supplied tables
differ in shape, consistency_plot fails with a ValidationError and produces no
result. -/
theorem claim_C6 (sqrt : α → α) (mds : ℕ → (ℕ → ℕ → α) → List (α × α))
    (c : List (String × PyVal α)) (selection : PySelection) (hc : c ≠ [])
    (h : (∃ p ∈ c, ¬ isDf p.2) ∨ ∃ p ∈ c, ∃ q ∈ c, shapeV p.2 ≠ shapeV q.2) :
    ∃ msg, consistency_plot sqrt mds (Option.some c) selection
      = .error (.validationError msg) := by
  simp only [consistency_plot]
  have hne : ¬ (c.isEmpty = true) := by
    simp only [List.isEmpty_iff]
    exact hc
  rw [if_neg hne]
  by_cases hdf : ∀ x ∈ c.map fun p => p.2, isDf x
  · rcases h with ⟨p, hp, hpdf⟩ | ⟨p, hp, q, hq, hpq⟩
    · exact absurd (hdf _ (List.mem_map_of_mem _ hp)) hpdf
    · rw [if_neg (not_not_intro hdf)]
      have hsh : ¬ ∀ x ∈ c.map fun p => p.2,
          shapeV x = shapeV ((c.map fun p => p.2).headD .other) := by
        intro hall
        have h1 := hall _ (List.mem_map_of_mem _ hp)
        have h2 := hall _ (List.mem_map_of_mem _ hq)
        exact hpq (h1.trans h2.symm)
      rw [if_pos hsh]
      exact ⟨_, rfl⟩
  · rw [if_pos hdf]
    exact ⟨_, rfl⟩

/-- Witness for C6: a shape mismatch between two supplied DataFrames. -/
theorem claim_C6_witness :
    ∃ msg, consistency_plot (α := ℚ) id (fun _ _ => [])
        (Option.some [("a", .df [[1]]), ("b", .df [[1], [2]])]) .noneSel
      = .error (.validationError msg) :=
  claim_C6 id (fun _ _ => [])
    [("a", .df [[1]]), ("b", .df [[1], [2]])] .noneSel
    (by simp)
    (Or.inr ⟨("a", .df [[1]]), by simp, ("b", .df [[1], [2]]), by simp,
      by decide⟩)

/-- C7: a one-element selection list, or a selection that is neither None nor a
list, makes consistency_plot fail with a ValidationError; a list selection of
length different from one subsets every validated table identically before the
distance computation. -/
theorem claim_C7 (sqrt : α → α) (mds : ℕ → (ℕ → ℕ → α) → List (α × α))
    (c : List (String × PyVal α)) (hc : c ≠ []) :
    (∀ x : ℕ, ∃ msg, consistency_plot sqrt mds (Option.some c) (.listSel [x])
        = .error (.validationError msg))
    ∧ (∃ msg, consistency_plot sqrt mds (Option.some c) .otherSel
        = .error (.validationError msg))
    ∧ ∀ l : List ℕ, l.length ≠ 1 →
        (∀ p ∈ c, isDf p.2) →
        (∀ p ∈ c, shapeV p.2 = shapeV ((c.map fun q => q.2).headD .other)) →
        ∃ res, consistency_plot sqrt mds (Option.some c) (.listSel l) = .ok res
          ∧ res.weights = c.map fun p => l.map fun idx => (dfData p.2).getD idx [] := by
  have hne : ¬ (c.isEmpty = true) := by
    simp only [List.isEmpty_iff]
    exact hc
  refine ⟨?_, ?_, ?_⟩
  · intro x
    simp only [consistency_plot]
    rw [if_neg hne]
    by_cases hdf : ∀ v ∈ c.map fun p => p.2, isDf v
    · rw [if_neg (not_not_intro hdf)]
      by_cases hsh : ∀ v ∈ c.map fun p => p.2,
          shapeV v = shapeV ((c.map fun p => p.2).headD .other)
      · rw [if_neg (not_not_intro hsh)]
        exact ⟨_, by rw [if_pos (show ([x] : List ℕ).length = 1 from rfl)]⟩
      · rw [if_pos hsh]
        exact ⟨_, rfl⟩
    · rw [if_pos hdf]
      exact ⟨_, rfl⟩
  · simp only [consistency_plot]
    rw [if_neg hne]
    by_cases hdf : ∀ v ∈ c.map fun p => p.2, isDf v
    · rw [if_neg (not_not_intro hdf)]
      by_cases hsh : ∀ v ∈ c.map fun p => p.2,
          shapeV v = shapeV ((c.map fun p => p.2).headD .other)
      · rw [if_neg (not_not_intro hsh)]
        exact ⟨_, rfl⟩
      · rw [if_pos hsh]
        exact ⟨_, rfl⟩
    · rw [if_pos hdf]
      exact ⟨_, rfl⟩
  · intro l hl hdf hsh
    simp only [consistency_plot]
    rw [if_neg hne]
    have hdf2 : ∀ v ∈ c.map fun p => p.2, isDf v := by
      intro v hv
      rw [List.mem_map] at hv
      obtain ⟨p, hp, rfl⟩ := hv
      exact hdf p hp
    have hsh2 : ∀ v ∈ c.map fun p => p.2,
        shapeV v = shapeV ((c.map fun p => p.2).headD .other) := by
      intro v hv
      rw [List.mem_map] at hv
      obtain ⟨p, hp, rfl⟩ := hv
      exact hsh p hp
    rw [if_neg (not_not_intro hdf2), if_neg (not_not_intro hsh2), if_neg hl]
    refine ⟨_, rfl, ?_⟩
    simp [List.map_map]

/-- Witness for C7: a single supplied DataFrame with each selection shape. -/
theorem claim_C7_witness :
    (∀ x : ℕ, ∃ msg, consistency_plot (α := ℚ) id (fun _ _ => [])
        (Option.some [("a", .df [[1]])]) (.listSel [x])
        = .error (.validationError msg))
    ∧ (∃ msg, consistency_plot (α := ℚ) id (fun _ _ => [])
        (Option.some [("a", .df [[1]])]) .otherSel
        = .error (.validationError msg))
    ∧ ∀ l : List ℕ, l.length ≠ 1 →
        (∀ p ∈ [(("a", .df [[1]]) : String × PyVal ℚ)], isDf p.2) →
        (∀ p ∈ [(("a", .df [[1]]) : String × PyVal ℚ)],
          shapeV p.2 = shapeV (([(("a", .df [[1]]) : String × PyVal ℚ)].map
            fun q => q.2).headD .other)) →
        ∃ res, consistency_plot (α := ℚ) id (fun _ _ => [])
            (Option.some [("a", .df [[1]])]) (.listSel l) = .ok res
          ∧ res.weights = [(("a", .df [[1]]) : String × PyVal ℚ)].map
              fun p => l.map fun idx => (dfData p.2).getD idx [] :=
  claim_C7 id (fun _ _ => []) [("a", .df [[1]])] (by simp)

/-- C9: the pipeline is a pure function of the supplied contributions and
selection (with the projection seed fixed inside calculate_coords), so two runs
on equal inputs return equal mean-distance matrices, examples and coordinates. -/
theorem claim_C9 (sqrt : α → α) (mds : ℕ → (ℕ → ℕ → α) → List (α × α))
    (c1 c2 : Option (List (String × PyVal α))) (s1 s2 : PySelection)
    (hc : c1 = c2) (hs : s1 = s2) :
    consistency_plot sqrt mds c1 s1 = consistency_plot sqrt mds c2 s2 := by
  rw [hc, hs]

/-- Witness for C9: two identical concrete invocations. -/
theorem claim_C9_witness :
    consistency_plot (α := ℚ) id (fun _ _ => [])
        (Option.some [("a", .df [[1]])]) .noneSel
      = consistency_plot (α := ℚ) id (fun _ _ => [])
        (Option.some [("a", .df [[1]])]) .noneSel :=
  claim_C9 id (fun _ _ => []) (Option.some [("a", .df [[1]])])
    (Option.some [("a", .df [[1]])]) .noneSel .noneSel rfl rfl

end Consistency
